import Mathlib

/-!
# Verification of the jobcalc calculation core

A shallow embedding of the `jobcalc` package's calculation core
(`jobcalc/types.py`, `jobcalc/core.py`, `jobcalc/utils.py`) together with
theorems settling the specification claims about it.

Python `decimal.Decimal` values are modelled as exact rationals (`ℚ`);
the inputs quantified over are the numeric values obtained after decimal
parsing, so "an input convertible to the value type" is modelled directly
by a rational.  Exceptions are modelled with `Except`: a raised
`PercentageOutOfRange` or `decimal.InvalidOperation` becomes an `error`
value of `CalcError`.
-/

/-- The error conditions the embedded core can raise:
`percentageOutOfRange` models `jobcalc.exceptions.PercentageOutOfRange`,
`invalidOperation` models `decimal.InvalidOperation`. -/
inductive CalcError where
  | percentageOutOfRange
  | invalidOperation
deriving DecidableEq, Repr

instance {ε α : Type} [DecidableEq ε] [DecidableEq α] :
    DecidableEq (Except ε α) := fun a b =>
  match a, b with
  | .ok x, .ok y => decidable_of_iff (x = y) (by simp)
  | .error e, .error f => decidable_of_iff (e = f) (by simp)
  | .ok _, .error _ => isFalse (fun h => Except.noConfusion h)
  | .error _, .ok _ => isFalse (fun h => Except.noConfusion h)

namespace JobCalc

/-- Embeds `Percentage.__new__` (types.py lines 211-235) on an already
decimal-parsed value `v`: a value in `[0, 1)` is kept as is, a value in
`[1, 100)` is divided by `100`, anything else raises
`PercentageOutOfRange`. -/
def Percentage.make (v : ℚ) : Except CalcError ℚ :=
  if 0 ≤ v ∧ v < 1 then .ok v
  else if 1 ≤ v ∧ v < 100 then .ok (v / 100)
  else .error .percentageOutOfRange

/-- Embeds `Currency.__new__` (types.py lines 262-278) on an already
decimal-parsed value: a negative value is replaced by its negation
(`value * -1`), so the result is never negative. -/
def Currency.make (v : ℚ) : ℚ :=
  if v < 0 then -v else v

/-- Embeds `calculate` (core.py lines 59-86):
`Currency((Currency(subtotal) / (1 - Percentage(margin))) *
(1 - Percentage(multiplier)) - Currency(deduction))`, with every
argument defaulting to `'0'`. -/
def calculate (subtotal : ℚ := 0) (margin : ℚ := 0)
    (multiplier : ℚ := 0) (deduction : ℚ := 0) : Except CalcError ℚ := do
  let m ← Percentage.make margin
  let mult ← Percentage.make multiplier
  pure (Currency.make
    ((Currency.make subtotal / (1 - m)) * (1 - mult) - Currency.make deduction))

/-! ## Strings as character lists

Python strings are modelled as `List Char`.  The embedded string
operations mirror `str.split`, `str.strip` and `''.join(s.split(sym))`
from the source. -/

/-- The value of a decimal digit character, `none` for any other
character (mirrors which characters `decimal.Decimal` accepts as
digits). -/
def digitVal (c : Char) : Option ℕ :=
  if '0' ≤ c ∧ c ≤ '9' then some (c.toNat - 48) else none

/-- The character for a decimal digit. -/
def digitChar (d : ℕ) : Char :=
  match d with
  | 0 => '0'
  | 1 => '1'
  | 2 => '2'
  | 3 => '3'
  | 4 => '4'
  | 5 => '5'
  | 6 => '6'
  | 7 => '7'
  | 8 => '8'
  | 9 => '9'
  | _ => '*'

/-- Embeds Python's `str.split(sep)` for a one-character separator:
splitting a string on `sep` into the (possibly empty) pieces between
occurrences. -/
def splitOnChar (sep : Char) : List Char → List (List Char)
  | [] => [[]]
  | c :: cs =>
    if c = sep then [] :: splitOnChar sep cs
    else
      match splitOnChar sep cs with
      | [] => [[c]]
      | t :: ts => (c :: t) :: ts

/-- The little-endian base-10 digit list of a natural number, written
with explicit fuel so that it is structurally recursive.  Agrees with
`Nat.digits 10` (see `natDigitsGo_eq_digits`). -/
def natDigitsGo : ℕ → ℕ → List ℕ
  | _, 0 => []
  | 0, _ + 1 => []
  | f + 1, n + 1 => (n + 1) % 10 :: natDigitsGo f ((n + 1) / 10)

/-- Little-endian base-10 digits of `n` (empty for `0`). -/
def natDigits (n : ℕ) : List ℕ := natDigitsGo n n

/-- Big-endian digit characters of a natural number, `"0"` for zero. -/
def intChars (n : ℕ) : List Char :=
  if n = 0 then ['0'] else ((natDigits n).reverse.map digitChar)

/-- Chunks a list into groups of three (used for thousands grouping of
the little-endian digit list). -/
def chunk3 : List α → List (List α)
  | [] => []
  | [a] => [[a]]
  | [a, b] => [[a, b]]
  | a :: b :: c :: rest => [a, b, c] :: chunk3 rest

/-- Modelled from the spec: `babel.numbers.format_currency` (an external
library, not part of this repository) renders a non-negative amount for
the default `USD`/`en_US` configuration as the symbol `$`, the integer
part with thousands separators `,` every three digits, and a fixed
two-digit fraction; the amount is first rounded to whole cents.  Here
`n` is the integer part in whole currency units. -/
def groupedChars (n : ℕ) : List Char :=
  if n = 0 then ['0']
  else
    List.intercalate [',']
      (((chunk3 (natDigits n)).map (fun ch => ch.reverse.map digitChar)).reverse)

/-- The fixed two-digit fraction part, for `n < 100` cents. -/
def twoDigitChars (n : ℕ) : List Char :=
  [digitChar (n / 10 % 10), digitChar (n % 10)]

/-- Floor of a rational, written with integer E-division so that it is
kernel-computable; equal to `Int.floor` by `ratFloor_eq`. -/
def ratFloor (q : ℚ) : ℤ := q.num / (q.den : ℤ)

/-- Rounds an amount to a whole number of cents (the 2-decimal rounding
`babel.numbers.format_currency` applies before display). -/
def centsOf (q : ℚ) : ℤ := ratFloor (q * 100 + 1 / 2)

/-- Modelled from the spec: the formatted display string
`Currency.formatted_string` (types.py lines 280-282) produces via the
external `babel.numbers.format_currency` for `USD`/`en_US`: symbol,
thousands separators, fixed 2-decimal fraction. -/
def formatCurrency (q : ℚ) : List Char :=
  let c := (centsOf q).toNat
  '$' :: groupedChars (c / 100) ++ '.' :: twoDigitChars (c % 100)

/-- Whether every character of the token is a decimal digit. -/
def allDigits (s : List Char) : Bool :=
  s.all fun c => (digitVal c).isSome

/-- The numeric value of a big-endian digit-character token. -/
def charsToNat (s : List Char) : ℕ :=
  s.foldl (fun a c => 10 * a + ((digitVal c).getD 0)) 0

/-- Embeds the plain-numeric-string fragment of `decimal.Decimal(str)`
relevant to this program: an unsigned finite decimal numeral — digit
characters with at most one point and at least one digit.  A thousands
separator `,` or a currency symbol is not a digit, so a token containing
one is rejected (`decimal.InvalidOperation`). -/
def parseUnsigned (s : List Char) : Option ℚ :=
  match splitOnChar '.' s with
  | [a] => if a ≠ [] ∧ allDigits a then some (charsToNat a) else none
  | [a, b] =>
    if (a ≠ [] ∨ b ≠ []) ∧ allDigits a ∧ allDigits b then
      some ((charsToNat a : ℚ) + (charsToNat b : ℚ) / 10 ^ b.length)
    else none
  | _ => none

/-- Embeds `decimal.Decimal(str)` on a possibly signed numeral. -/
def parseDecimal (s : List Char) : Option ℚ :=
  match s with
  | [] => none
  | c :: rest =>
    if c = '-' then (parseUnsigned rest).map (fun v => -v)
    else if c = '+' then parseUnsigned rest
    else parseUnsigned s

/-- Embeds the string path of `Currency.__new__` (types.py lines
262-278): try `decimal.Decimal(str(value))`; on failure strip the
currency symbol — `''.join(str(value).split(symbol))` with symbol `'$'`,
which removes every `'$'` — and retry; if that also fails the
`decimal.InvalidOperation` propagates.  A parsed value is sign-clamped
exactly as the numeric path is. -/
def Currency.fromChars (s : List Char) : Except CalcError ℚ :=
  match parseDecimal s with
  | some v => .ok (Currency.make v)
  | none =>
    match parseDecimal (s.filter (fun c => c ≠ '$')) with
    | some v => .ok (Currency.make v)
    | none => .error .invalidOperation

/-! ## The calculator tree

`BaseCalculator` (core.py lines 93-195) stores `costs`, `margins`,
`discounts`, `deductions` as lists whose entries may themselves be
nested lists; a cost entry may also be another calculator.  `NTree`
embeds a nested numeric entry; `CostTree` embeds a nested cost entry. -/

/-- A nested entry of the `margins`/`discounts`/`deductions` lists: a
numeric scalar or a sub-list of entries. -/
inductive NTree where
  | leaf : ℚ → NTree
  | node : List NTree → NTree
deriving Repr

mutual
/-- A nested entry of the `costs` list: a numeric scalar, a child
calculator, or a sub-list of entries. -/
inductive CostTree where
  | value : ℚ → CostTree
  | child : BCalc → CostTree
  | group : List CostTree → CostTree

/-- The state of a `BaseCalculator` (core.py lines 113-136): the four
stored collections and the tri-state `ignore_margins` flag. -/
inductive BCalc where
  | mk : List CostTree → List NTree → List NTree → List NTree →
      Option Bool → BCalc
end

def BCalc.costs : BCalc → List CostTree
  | .mk c _ _ _ _ => c

def BCalc.margins : BCalc → List NTree
  | .mk _ m _ _ _ => m

def BCalc.discounts : BCalc → List NTree
  | .mk _ _ d _ _ => d

def BCalc.deductions : BCalc → List NTree
  | .mk _ _ _ d _ => d

def BCalc.ignoreMargins : BCalc → Option Bool
  | .mk _ _ _ _ i => i

mutual
/-- Embeds `flatten` (utils.py lines 178-205) on one nested numeric entry:
depth-first, left to right. -/
def NTree.flatten : NTree → List ℚ
  | .leaf q => [q]
  | .node ts => NTree.flattenList ts

/-- Embeds `flatten` on a list of nested numeric entries. -/
def NTree.flattenList : List NTree → List ℚ
  | [] => []
  | t :: ts => t.flatten ++ NTree.flattenList ts
end

/-- Wraps each value as a `Percentage`, left to right, stopping at the
first failure — the evaluation order of Python's lazy
`map(Percentage, ...)` inside `sum`. -/
def percentVals : List ℚ → Except CalcError (List ℚ)
  | [] => pure []
  | q :: qs => do
    let p ← Percentage.make q
    let rest ← percentVals qs
    pure (p :: rest)

/-- Embeds `Percentage(sum(map(Percentage, flatten(entries))))` from
`BaseCalculator.ctx` (core.py lines 142-143): each flattened entry is
wrapped as a `Percentage`, the wrapped values are summed as plain
decimals, and the sum is wrapped as a `Percentage` again. -/
def percentSum (entries : List NTree) : Except CalcError ℚ := do
  let vals ← percentVals (NTree.flattenList entries)
  Percentage.make vals.sum

/-- Embeds `Currency(sum(map(Currency, flatten(entries))))` from
`BaseCalculator.ctx` (core.py line 144). -/
def currencySum (entries : List NTree) : ℚ :=
  Currency.make ((NTree.flattenList entries).map Currency.make).sum

/-- The `Context` namedtuple (core.py lines 30-31). -/
structure Context where
  subtotal : ℚ
  margin : ℚ
  discount : ℚ
  deduction : ℚ
deriving Repr

mutual
/-- Embeds `BaseCalculator.subtotal` (core.py lines 147-173): walk the
flattened costs, taking `total()` of a child calculator — or
`subtotal(True)` of it when the `ignore_margins` parameter or the
instance flag is `True` — and the plain value of a scalar; then
`Currency(sum(map(Currency, totals)))`. -/
def BCalc.subtotal : BCalc → Bool → Except CalcError ℚ
  | .mk costs _ _ _ selfIg, ig => do
    let totals ← CostTree.subtotalList costs ig selfIg
    pure (Currency.make (totals.map Currency.make).sum)
termination_by c _ => (sizeOf c, 1)

/-- The contribution of one flattened-cost iteration step. -/
def CostTree.subtotalOne : CostTree → Bool → Option Bool →
    Except CalcError (List ℚ)
  | .value q, _, _ => pure [q]
  | .child c, ig, selfIg =>
    if ig = true ∨ selfIg = some true then do
      let s ← BCalc.subtotal c true
      pure [s]
    else do
      let t ← BCalc.total c
      pure [t]
  | .group ts, ig, selfIg => CostTree.subtotalList ts ig selfIg
termination_by t _ _ => (sizeOf t, 0)

/-- The contributions of a list of cost entries, in order. -/
def CostTree.subtotalList : List CostTree → Bool → Option Bool →
    Except CalcError (List ℚ)
  | [], _, _ => pure []
  | t :: ts, ig, selfIg => do
    let xs ← CostTree.subtotalOne t ig selfIg
    let rest ← CostTree.subtotalList ts ig selfIg
    pure (xs ++ rest)
termination_by ts _ _ => (sizeOf ts, 0)

/-- Embeds `BaseCalculator.ctx` (core.py lines 138-145). -/
def BCalc.ctx : BCalc → Bool → Except CalcError Context
  | c, ig => do
    let st ← BCalc.subtotal c ig
    let m ← percentSum c.margins
    let d ← percentSum c.discounts
    pure { subtotal := st, margin := m, discount := d,
           deduction := currencySum c.deductions }
termination_by c _ => (sizeOf c, 2)

/-- Embeds `BaseCalculator.total` (core.py lines 175-186): build a
context with `ignore_margins=False` and feed it to `calculate`. -/
def BCalc.total : BCalc → Except CalcError ℚ
  | c => do
    let cx ← BCalc.ctx c false
    calculate cx.subtotal cx.margin cx.discount cx.deduction
termination_by c => (sizeOf c, 3)
end

/-! ## Generic Python values: `flatten` and constructor truthiness -/

/-- A Python value as handled by `flatten` (utils.py lines 178-205) and
by the constructor truthiness checks (core.py lines 113-136, 215-238):
a text value, a numeric value, or a (possibly nested) list. -/
inductive PyVal where
  | str : List Char → PyVal
  | num : ℚ → PyVal
  | list : List PyVal → PyVal

/-- Whether the value is a list (has `__iter__` and is not a text
value). -/
def PyVal.isList : PyVal → Bool
  | .list _ => true
  | _ => false

/-- Embeds `flatten(*args)` with the default `ignoretypes=str` (utils.py
lines 178-205): a text value is yielded as is (never iterated character
by character), an iterable is recursed into, any other value is
yielded. -/
def flattenList : List PyVal → List PyVal
  | [] => []
  | .str s :: rest => .str s :: flattenList rest
  | .list xs :: rest => flattenList xs ++ flattenList rest
  | .num q :: rest => .num q :: flattenList rest

/-- Python truthiness of a `PyVal`: empty text, zero, and the empty list
are falsy; everything else is truthy. -/
def isTruthy : PyVal → Bool
  | .str s => decide (s ≠ [])
  | .num q => decide (q ≠ 0)
  | .list xs => !xs.isEmpty

/-- One stored collection after `BaseCalculator.__init__` (core.py
lines 113-136): the collection starts empty and the constructor
argument is appended — as a single element — only when it is truthy
(`if costs: self.costs.append(costs)`, and likewise for the other
collections). -/
def storeArg (arg : PyVal) : List PyVal :=
  if isTruthy arg then [arg] else []

/-- The four collections stored by `BaseCalculator.__init__`. -/
structure BaseInitState where
  costs : List PyVal
  margins : List PyVal
  discounts : List PyVal
  deductions : List PyVal

/-- Embeds `BaseCalculator.__init__` (core.py lines 113-136). -/
def BaseCalculator.init (costs margins discounts deductions : PyVal) :
    BaseInitState :=
  { costs := storeArg costs
    margins := storeArg margins
    discounts := storeArg discounts
    deductions := storeArg deductions }

/-- Embeds the `hours` storage of `Calculator.__init__` (core.py lines
230-235): the argument is appended only when truthy, then the config's
`default_hours` is appended when it differs from the string `'0'`. -/
def Calculator.initHours (hours : PyVal) (defaultHours : List Char) :
    List PyVal :=
  storeArg hours ++ (if defaultHours ≠ ['0'] then [.str defaultHours] else [])

/-- Embeds the `formatters` storage of `Calculator.__init__` (core.py
lines 226-228). -/
def Calculator.initFormatters (formatters : PyVal) : List PyVal :=
  storeArg formatters

/-! ## The `rate` setter -/

/-- A value assigned to `Calculator.rate`: Python `None`, a value
`decimal.Decimal` converts to the number `q`, or a value
`decimal.Decimal` raises on (an unparseable string or other object). -/
inductive RateValue where
  | none
  | num : ℚ → RateValue
  | invalid
deriving DecidableEq, Repr

/-- Embeds the `rate` setter (core.py lines 250-261) as a total
function from the current rate and the assigned value to the new rate:
`decimal.Decimal(value)` raising `InvalidOperation` or `TypeError` is
caught and logged (the `none`/`invalid` branches), a negative rate is
logged and ignored, and only a non-negative convertible value is
stored.  Totality of this function is the embedded form of "the setter
itself never throws". -/
def Calculator.setRate (current : ℚ) (value : RateValue) : ℚ :=
  match value with
  | .num r => if 0 ≤ r then r else current
  | _ => current

/-! ## `parse_input_string` -/

/-- Python `str.strip` on one side: drop leading whitespace. -/
def dropSpace (s : List Char) : List Char :=
  s.dropWhile Char.isWhitespace

/-- Embeds Python `str.strip`: whitespace removed from both ends. -/
def trimChars (s : List Char) : List Char :=
  ((dropSpace s).reverse.dropWhile Char.isWhitespace).reverse

/-- Embeds `parse_input_string` (utils.py lines 143-162) for a
one-character separator: strip the whole string, split it on the
separator, keep the tokens that are non-empty before stripping
(`if s != ''` ranges over the raw split tokens), strip each kept token
and apply the converter.  The result is always a list (the Python
function always returns a tuple). -/
def parse_input_string {α : Type} (string : List Char) (seperator : Char)
    (convert : List Char → α) : List α :=
  (((splitOnChar seperator (trimChars string)).filter
    (fun s => s ≠ [])).map (fun s => convert (trimChars s)))

/-- The calculator of the repository's test suite:
`BaseCalculator(['123', '456'], '50', '10', '100')` — costs stored as
one appended list element, margin 50%, discount 10%, deduction 100. -/
def exampleChild : BCalc :=
  .mk [.group [.value 123, .value 456]] [.leaf 50] [.leaf 10] [.leaf 100] none

theorem Currency.make_nonneg (v : ℚ) : 0 ≤ Currency.make v := by
  unfold Currency.make
  split <;> linarith

theorem Currency.make_of_nonneg {v : ℚ} (h : 0 ≤ v) : Currency.make v = v := by
  unfold Currency.make
  rw [if_neg (not_lt.2 h)]

theorem Percentage.make_ok_mem {v p : ℚ} (h : Percentage.make v = .ok p) :
    0 ≤ p ∧ p < 1 := by
  unfold Percentage.make at h
  split at h
  · rename_i hv
    cases h
    exact hv
  · split at h
    · rename_i hv
      cases h
      constructor <;> [linarith [hv.1]; linarith [hv.2]]
    · cases h

theorem Percentage.make_of_lt_one {v : ℚ} (h0 : 0 ≤ v) (h1 : v < 1) :
    Percentage.make v = .ok v := by
  unfold Percentage.make
  rw [if_pos ⟨h0, h1⟩]

theorem Percentage.make_of_lt_hundred {v : ℚ} (h0 : 1 ≤ v) (h1 : v < 100) :
    Percentage.make v = .ok (v / 100) := by
  unfold Percentage.make
  rw [if_neg, if_pos ⟨h0, h1⟩]
  rintro ⟨-, hlt⟩
  linarith

theorem Percentage.make_of_out_of_range {v : ℚ} (h : v < 0 ∨ 100 ≤ v) :
    Percentage.make v = .error .percentageOutOfRange := by
  unfold Percentage.make
  rw [if_neg, if_neg]
  · rintro ⟨h1, h2⟩
    rcases h with h | h <;> linarith
  · rintro ⟨h1, h2⟩
    rcases h with h | h <;> linarith

theorem calculate_ok {s m mu d m' mu' : ℚ}
    (hm : Percentage.make m = .ok m') (hmu : Percentage.make mu = .ok mu') :
    calculate s m mu d =
      .ok (Currency.make ((Currency.make s / (1 - m')) * (1 - mu') -
        Currency.make d)) := by
  unfold calculate
  rw [hm, hmu]
  rfl

theorem ratFloor_eq (q : ℚ) : ratFloor q = ⌊q⌋ := (Rat.floor_def).symm

/-! ## Digit-string lemmas -/

theorem natDigitsGo_eq_digits : ∀ f n, n ≤ f → natDigitsGo f n = Nat.digits 10 n := by
  intro f
  induction f with
  | zero =>
    intro n hn
    interval_cases n
    rw [Nat.digits_zero]
    simp [natDigitsGo]
  | succ f ih =>
    intro n hn
    match n with
    | 0 =>
      rw [Nat.digits_zero]
      simp [natDigitsGo]
    | n + 1 =>
      rw [natDigitsGo, Nat.digits_def' (by norm_num : (1:ℕ) < 10) (Nat.succ_pos n)]
      rw [ih ((n + 1) / 10) (by omega)]

theorem natDigits_eq (n : ℕ) : natDigits n = Nat.digits 10 n :=
  natDigitsGo_eq_digits n n le_rfl

theorem digitVal_digitChar {d : ℕ} (h : d < 10) : digitVal (digitChar d) = some d := by
  interval_cases d <;> rfl

theorem charsToNat_append_one (xs : List Char) (c : Char) :
    charsToNat (xs ++ [c]) = 10 * charsToNat xs + (digitVal c).getD 0 := by
  unfold charsToNat
  rw [List.foldl_append]
  rfl

theorem charsToNat_rev_map {ds : List ℕ} (h : ∀ d ∈ ds, d < 10) :
    charsToNat ((ds.reverse).map digitChar) = Nat.ofDigits 10 ds := by
  induction ds with
  | nil => rfl
  | cons d ds ih =>
    rw [List.reverse_cons, List.map_append, List.map_singleton,
      charsToNat_append_one, ih (fun x hx => h x (List.mem_cons_of_mem _ hx)),
      Nat.ofDigits_cons, digitVal_digitChar (h d (List.mem_cons_self _ _))]
    simp only [Option.getD_some]
    ring

theorem charsToNat_intChars (n : ℕ) : charsToNat (intChars n) = n := by
  unfold intChars
  split
  · rename_i h
    subst h
    rfl
  · rw [natDigits_eq,
      charsToNat_rev_map (fun d hd => Nat.digits_lt_base (by norm_num) hd),
      Nat.ofDigits_digits]

theorem allDigits_intChars (n : ℕ) : allDigits (intChars n) = true := by
  unfold intChars allDigits
  split
  · rfl
  · rw [List.all_eq_true]
    intro c hc
    rw [List.mem_map] at hc
    obtain ⟨d, hd, rfl⟩ := hc
    rw [natDigits_eq] at hd
    rw [List.mem_reverse] at hd
    rw [digitVal_digitChar (Nat.digits_lt_base (by norm_num) hd)]
    rfl

theorem intChars_ne_nil (n : ℕ) : intChars n ≠ [] := by
  unfold intChars
  split
  · simp
  · rename_i h
    have : Nat.digits 10 n ≠ [] := Nat.digits_ne_nil_iff_ne_zero.2 h
    simp [natDigits_eq, this]

theorem mem_allDigits {s : List Char} (h : allDigits s = true) {c : Char}
    (hc : c ∈ s) : (digitVal c).isSome = true := by
  unfold allDigits at h
  rw [List.all_eq_true] at h
  exact h c hc

theorem digitVal_isSome_ne {c : Char} (h : (digitVal c).isSome = true) :
    c ≠ '.' ∧ c ≠ ',' ∧ c ≠ '$' ∧ c ≠ '-' ∧ c ≠ '+' := by
  refine ⟨?_, ?_, ?_, ?_, ?_⟩ <;>
    (rintro rfl; exact absurd h (by decide))

theorem chunk3_of_short {α : Type} (ds : List α) (h1 : ds ≠ [])
    (h3 : ds.length ≤ 3) : chunk3 ds = [ds] := by
  match ds with
  | [] => exact absurd rfl h1
  | [a] => rfl
  | [a, b] => rfl
  | [a, b, c] => rfl
  | a :: b :: c :: d :: rest => simp at h3

theorem digits_len_le_three {n : ℕ} (h : n < 1000) :
    (Nat.digits 10 n).length ≤ 3 := by
  rcases Nat.eq_zero_or_pos n with rfl | hn
  · simp
  · rw [Nat.digits_len 10 n (by norm_num) (Nat.pos_iff_ne_zero.1 hn)]
    have : Nat.log 10 n < 3 :=
      Nat.log_lt_of_lt_pow (Nat.pos_iff_ne_zero.1 hn) (by norm_num; omega)
    omega

theorem groupedChars_of_lt {n : ℕ} (h : n < 1000) :
    groupedChars n = intChars n := by
  unfold groupedChars intChars
  split
  · rfl
  · rename_i hn
    rw [chunk3_of_short (natDigits n)
      (by rw [natDigits_eq]; exact Nat.digits_ne_nil_iff_ne_zero.2 hn)
      (by rw [natDigits_eq]; exact digits_len_le_three h)]
    simp [List.intercalate]

theorem splitOnChar_of_not_mem {sep : Char} {s : List Char} (h : sep ∉ s) :
    splitOnChar sep s = [s] := by
  induction s with
  | nil => rfl
  | cons c cs ih =>
    rw [List.mem_cons, not_or] at h
    rw [splitOnChar, if_neg (fun hc => h.1 hc.symm), ih h.2]

theorem splitOnChar_append {sep : Char} {a r : List Char} (h : sep ∉ a) :
    splitOnChar sep (a ++ sep :: r) = a :: splitOnChar sep r := by
  induction a with
  | nil =>
    rw [List.nil_append, splitOnChar, if_pos rfl]
  | cons c cs ih =>
    rw [List.mem_cons, not_or] at h
    rw [List.cons_append, splitOnChar, if_neg (fun hc => h.1 hc.symm), ih h.2]

theorem allDigits_twoDigitChars (m : ℕ) : allDigits (twoDigitChars m) = true := by
  unfold allDigits twoDigitChars
  rw [List.all_eq_true]
  intro c hc
  rcases List.mem_cons.1 hc with rfl | hc
  · rw [digitVal_digitChar (Nat.mod_lt _ (by norm_num))]
    rfl
  · rcases List.mem_cons.1 hc with rfl | hc
    · rw [digitVal_digitChar (Nat.mod_lt _ (by norm_num))]
      rfl
    · cases hc

theorem charsToNat_twoDigitChars {m : ℕ} (h : m < 100) :
    charsToNat (twoDigitChars m) = m := by
  unfold charsToNat twoDigitChars
  have h1 : m / 10 % 10 = m / 10 := Nat.mod_eq_of_lt (by omega)
  rw [List.foldl_cons, List.foldl_cons, List.foldl_nil,
    digitVal_digitChar (Nat.mod_lt _ (by norm_num)),
    digitVal_digitChar (Nat.mod_lt _ (by norm_num)), h1]
  simp only [Option.getD_some]
  omega

/-! ## Round-tripping a formatted currency string -/

theorem parseUnsigned_intfrac {i f : ℕ} (hf : f < 100) :
    parseUnsigned (intChars i ++ '.' :: twoDigitChars f) =
      some ((i : ℚ) + (f : ℚ) / 100) := by
  have hdotI : '.' ∉ intChars i := fun hm =>
    (digitVal_isSome_ne (mem_allDigits (allDigits_intChars i) hm)).1 rfl
  have hdotT : '.' ∉ twoDigitChars f := fun hm =>
    (digitVal_isSome_ne (mem_allDigits (allDigits_twoDigitChars f) hm)).1 rfl
  have hsp : splitOnChar '.' (intChars i ++ '.' :: twoDigitChars f) =
      [intChars i, twoDigitChars f] := by
    rw [splitOnChar_append hdotI, splitOnChar_of_not_mem hdotT]
  simp only [parseUnsigned, hsp]
  rw [if_pos ⟨Or.inl (intChars_ne_nil i), allDigits_intChars i,
    allDigits_twoDigitChars f⟩]
  rw [charsToNat_intChars, charsToNat_twoDigitChars hf]
  norm_num [twoDigitChars]

theorem parseDecimal_of_digit_head {hd : Char} {tl : List Char}
    (h : (digitVal hd).isSome = true) :
    parseDecimal (hd :: tl) = parseUnsigned (hd :: tl) := by
  obtain ⟨-, -, -, h4, h5⟩ := digitVal_isSome_ne h
  simp [parseDecimal, h4, h5]

theorem parseDecimal_dollar_format {g t : List Char} (hg : '.' ∉ g)
    (ht : '.' ∉ t) :
    parseDecimal ('$' :: g ++ '.' :: t) = none := by
  have hsp : splitOnChar '.' (('$' :: g) ++ '.' :: t) = [('$' :: g), t] := by
    rw [splitOnChar_append, splitOnChar_of_not_mem ht]
    rw [List.mem_cons, not_or]
    exact ⟨by decide, hg⟩
  have hps : parseUnsigned (('$' :: g) ++ '.' :: t) = none := by
    simp only [parseUnsigned, hsp]
    rw [if_neg]
    rintro ⟨-, hall, -⟩
    have := mem_allDigits hall (List.mem_cons_self '$' g)
    exact absurd this (by decide)
  rw [List.cons_append]
  simp only [parseDecimal]
  rw [if_neg (by decide), if_neg (by decide), ← List.cons_append]
  exact hps

theorem filter_formatCurrency {g t : List Char}
    (hg : ∀ c ∈ g, (digitVal c).isSome = true)
    (ht : ∀ c ∈ t, (digitVal c).isSome = true) :
    (('$' :: g ++ '.' :: t).filter (fun c => c ≠ '$')) = g ++ '.' :: t := by
  rw [List.filter_append, List.filter_cons_of_neg (by decide),
    List.filter_cons_of_pos (by decide)]
  rw [List.filter_eq_self.2 (fun c hc =>
      decide_eq_true ((digitVal_isSome_ne (hg c hc)).2.2.1)),
    List.filter_eq_self.2 (fun c hc =>
      decide_eq_true ((digitVal_isSome_ne (ht c hc)).2.2.1))]

theorem centsOf_nonneg {q : ℚ} (hq : 0 ≤ q) : 0 ≤ centsOf q := by
  rw [centsOf, ratFloor_eq]
  positivity

theorem fromChars_formatCurrency {q : ℚ} (hq : 0 ≤ q)
    (hc : centsOf q < 100000) :
    Currency.fromChars (formatCurrency q) = .ok ((centsOf q : ℚ) / 100) := by
  set c : ℕ := (centsOf q).toNat with hcdef
  have hcast : (c : ℤ) = centsOf q := Int.toNat_of_nonneg (centsOf_nonneg hq)
  have hclt : c < 100000 := by omega
  have hgi : groupedChars (c / 100) = intChars (c / 100) :=
    groupedChars_of_lt (by omega)
  have hfmt : formatCurrency q =
      '$' :: intChars (c / 100) ++ '.' :: twoDigitChars (c % 100) := by
    rw [formatCurrency, ← hgi]
  have hdigI : ∀ ch ∈ intChars (c / 100), (digitVal ch).isSome = true :=
    fun ch hch => mem_allDigits (allDigits_intChars _) hch
  have hdigT : ∀ ch ∈ twoDigitChars (c % 100), (digitVal ch).isSome = true :=
    fun ch hch => mem_allDigits (allDigits_twoDigitChars _) hch
  have hdotI : '.' ∉ intChars (c / 100) := fun hm =>
    (digitVal_isSome_ne (hdigI _ hm)).1 rfl
  have hdotT : '.' ∉ twoDigitChars (c % 100) := fun hm =>
    (digitVal_isSome_ne (hdigT _ hm)).1 rfl
  have h1 : parseDecimal (formatCurrency q) = none := by
    rw [hfmt]
    exact parseDecimal_dollar_format hdotI hdotT
  have h2 : (formatCurrency q).filter (fun ch => ch ≠ '$') =
      intChars (c / 100) ++ '.' :: twoDigitChars (c % 100) := by
    rw [hfmt]
    exact filter_formatCurrency hdigI hdigT
  obtain ⟨hd, tl, hcons⟩ := List.exists_cons_of_ne_nil (intChars_ne_nil (c / 100))
  have h3 : parseDecimal (intChars (c / 100) ++ '.' :: twoDigitChars (c % 100)) =
      some ((↑(c / 100) : ℚ) + (↑(c % 100) : ℚ) / 100) := by
    rw [hcons, List.cons_append, parseDecimal_of_digit_head
      (hdigI hd (by rw [hcons]; exact List.mem_cons_self hd tl)),
      ← List.cons_append, ← hcons]
    exact parseUnsigned_intfrac (Nat.mod_lt _ (by norm_num))
  have hval : ((↑(c / 100) : ℚ) + (↑(c % 100) : ℚ) / 100) = (c : ℚ) / 100 := by
    field_simp
    norm_cast
    omega
  rw [Currency.fromChars, h1, h2, h3, hval]
  show Except.ok (Currency.make ((c : ℚ) / 100)) = Except.ok ((centsOf q : ℚ) / 100)
  rw [Currency.make_of_nonneg (by positivity)]
  rw [show ((c : ℚ) = (centsOf q : ℚ)) from by exact_mod_cast congrArg Int.cast hcast]

/-! ## Lemmas about the calculator tree -/

theorem exc_bind_ok {ε α β : Type} (a : α) (f : α → Except ε β) :
    (Except.ok a >>= f) = f a := rfl

theorem exc_bind_err {ε α β : Type} (e : ε) (f : α → Except ε β) :
    ((Except.error e : Except ε α) >>= f) = .error e := rfl

theorem exc_map_ok {ε α β : Type} (f : α → β) (a : α) :
    (f <$> (Except.ok a : Except ε α)) = Except.ok (f a) := rfl

theorem exc_map_err {ε α β : Type} (f : α → β) (e : ε) :
    (f <$> (Except.error e : Except ε α)) = (Except.error e : Except ε β) := rfl

theorem exc_pure {ε α : Type} (a : α) :
    (pure a : Except ε α) = Except.ok a := rfl

theorem subtotalList_values (vs : List ℚ) (ig : Bool) (s : Option Bool) :
    CostTree.subtotalList (vs.map .value) ig s = .ok vs := by
  induction vs with
  | nil =>
    rw [List.map_nil, CostTree.subtotalList]
    rfl
  | cons v vs ih =>
    rw [List.map_cons, CostTree.subtotalList, CostTree.subtotalOne, ih]
    rfl

theorem subtotalList_append {ts us : List CostTree} {ig : Bool} {s : Option Bool}
    {a b : List ℚ} (ha : CostTree.subtotalList ts ig s = .ok a)
    (hb : CostTree.subtotalList us ig s = .ok b) :
    CostTree.subtotalList (ts ++ us) ig s = .ok (a ++ b) := by
  induction ts generalizing a with
  | nil =>
    rw [CostTree.subtotalList] at ha
    rw [exc_pure] at ha
    cases ha
    rw [List.nil_append, List.nil_append, hb]
  | cons t ts ih =>
    rw [CostTree.subtotalList] at ha
    rw [List.cons_append, CostTree.subtotalList]
    match hone : CostTree.subtotalOne t ig s with
    | .error e =>
      rw [hone, exc_bind_err] at ha
      cases ha
    | .ok xs =>
      rw [hone] at ha
      rw [exc_bind_ok] at ha ⊢
      match hrest : CostTree.subtotalList ts ig s with
      | .error e =>
        rw [hrest, exc_bind_err] at ha
        cases ha
      | .ok rest =>
        rw [hrest, exc_bind_ok, exc_pure] at ha
        cases ha
        rw [ih hrest, exc_bind_ok, exc_pure, List.append_assoc]

theorem BCalc.subtotal_ok {costs : List CostTree} {m d dd : List NTree}
    {selfIg : Option Bool} {ig : Bool} {vs : List ℚ}
    (h : CostTree.subtotalList costs ig selfIg = .ok vs) :
    BCalc.subtotal (.mk costs m d dd selfIg) ig =
      .ok (Currency.make ((vs.map Currency.make).sum)) := by
  rw [BCalc.subtotal, h, exc_bind_ok, exc_pure]

theorem subtotalOne_child_total {c : BCalc} {ig : Bool} {selfIg : Option Bool}
    (hig : ¬(ig = true ∨ selfIg = some true)) {t : ℚ}
    (h : BCalc.total c = .ok t) :
    CostTree.subtotalOne (.child c) ig selfIg = .ok [t] := by
  rw [CostTree.subtotalOne, if_neg hig, h, exc_bind_ok, exc_pure]

theorem subtotalOne_child_subtotal {c : BCalc} {ig : Bool} {selfIg : Option Bool}
    (hig : ig = true ∨ selfIg = some true) {st : ℚ}
    (h : BCalc.subtotal c true = .ok st) :
    CostTree.subtotalOne (.child c) ig selfIg = .ok [st] := by
  rw [CostTree.subtotalOne, if_pos hig, h, exc_bind_ok, exc_pure]

theorem BCalc.ctx_ok {c : BCalc} {ig : Bool} {st m d : ℚ}
    (hst : BCalc.subtotal c ig = .ok st)
    (hm : percentSum c.margins = .ok m)
    (hd : percentSum c.discounts = .ok d) :
    BCalc.ctx c ig = .ok ⟨st, m, d, currencySum c.deductions⟩ := by
  rw [BCalc.ctx, hst, exc_bind_ok, hm, exc_bind_ok, hd, exc_bind_ok, exc_pure]

theorem BCalc.ctx_err_margin {c : BCalc} {ig : Bool} {st : ℚ}
    (hst : BCalc.subtotal c ig = .ok st)
    (hm : percentSum c.margins = .error .percentageOutOfRange) :
    BCalc.ctx c ig = .error .percentageOutOfRange := by
  rw [BCalc.ctx, hst, exc_bind_ok, hm, exc_bind_err]

theorem BCalc.total_ok {c : BCalc} {cx : Context}
    (h : BCalc.ctx c false = .ok cx) :
    BCalc.total c = calculate cx.subtotal cx.margin cx.discount cx.deduction := by
  rw [BCalc.total, h, exc_bind_ok]

theorem BCalc.total_err {c : BCalc} {e : CalcError}
    (h : BCalc.ctx c false = .error e) : BCalc.total c = .error e := by
  rw [BCalc.total, h, exc_bind_err]

theorem percentSum_ok {entries : List NTree} {vals : List ℚ}
    (h : percentVals (NTree.flattenList entries) = .ok vals) :
    percentSum entries = Percentage.make vals.sum := by
  rw [percentSum, h, exc_bind_ok]

theorem percentVals_cons_ok {q : ℚ} {qs : List ℚ} {p : ℚ} {rest : List ℚ}
    (hq : Percentage.make q = .ok p) (hqs : percentVals qs = .ok rest) :
    percentVals (q :: qs) = .ok (p :: rest) := by
  rw [percentVals, hq, exc_bind_ok, hqs, exc_bind_ok, exc_pure]

theorem percentVals_mem {qs vals : List ℚ} (h : percentVals qs = .ok vals) :
    ∀ v ∈ vals, 0 ≤ v ∧ v < 1 := by
  induction qs generalizing vals with
  | nil =>
    rw [percentVals, exc_pure] at h
    cases h
    intro v hv
    cases hv
  | cons q qs ih =>
    rw [percentVals] at h
    match hq : Percentage.make q with
    | .error e =>
      rw [hq, exc_bind_err] at h
      cases h
    | .ok p =>
      rw [hq, exc_bind_ok] at h
      match hrest : percentVals qs with
      | .error e =>
        rw [hrest, exc_bind_err] at h
        cases h
      | .ok rest =>
        rw [hrest, exc_bind_ok, exc_pure] at h
        cases h
        intro v hv
        rcases List.mem_cons.1 hv with rfl | hv
        · exact Percentage.make_ok_mem hq
        · exact ih hrest v hv

theorem percentVals_sum_nonneg {qs vals : List ℚ}
    (h : percentVals qs = .ok vals) : 0 ≤ vals.sum :=
  List.sum_nonneg fun v hv => (percentVals_mem h v hv).1

/-! ## Helper lemmas for concrete calculators -/

theorem percentVals_nil : percentVals [] = .ok [] := rfl

theorem subtotalList_nil {b : Bool} {ig : Option Bool} :
    CostTree.subtotalList [] b ig = .ok [] := by
  rw [CostTree.subtotalList]
  rfl

theorem subtotal_nil (m d dd : List NTree) (ig : Option Bool) (b : Bool) :
    BCalc.subtotal (.mk [] m d dd ig) b = .ok 0 := by
  rw [BCalc.subtotal_ok subtotalList_nil, List.map_nil, List.sum_nil,
    Currency.make_of_nonneg le_rfl]

theorem flattenN_single (q : ℚ) : NTree.flattenList [.leaf q] = [q] := by
  rw [NTree.flattenList, NTree.flatten, NTree.flattenList]
  rfl

theorem flattenN_pair (q r : ℚ) :
    NTree.flattenList [.leaf q, .leaf r] = [q, r] := by
  rw [NTree.flattenList, NTree.flatten, flattenN_single]
  rfl

theorem percentSum_single {q p : ℚ} (h : Percentage.make q = .ok p) :
    percentSum [.leaf q] = .ok p := by
  rw [percentSum_ok (by rw [flattenN_single]; exact percentVals_cons_ok h percentVals_nil)]
  rw [List.sum_cons, List.sum_nil, add_zero]
  have hm := Percentage.make_ok_mem h
  exact Percentage.make_of_lt_one hm.1 hm.2

theorem percentSum_nil : percentSum [] = .ok 0 := by
  rw [percentSum_ok (by rw [NTree.flattenList]; exact percentVals_nil)]
  rw [List.sum_nil]
  exact Percentage.make_of_lt_one le_rfl one_pos

theorem currencySum_nil : currencySum [] = 0 := by
  rw [currencySum, NTree.flattenList, List.map_nil, List.sum_nil,
    Currency.make_of_nonneg le_rfl]

theorem currencySum_single {q : ℚ} (h : 0 ≤ q) : currencySum [.leaf q] = q := by
  rw [currencySum, flattenN_single, List.map_cons, List.map_nil,
    List.sum_cons, List.sum_nil, Currency.make_of_nonneg h, add_zero,
    Currency.make_of_nonneg h]

theorem make_fifty : Percentage.make 50 = .ok (1 / 2) := by
  rw [Percentage.make_of_lt_hundred (by norm_num) (by norm_num)]
  norm_num

theorem make_ten : Percentage.make 10 = .ok (1 / 10) := by
  rw [Percentage.make_of_lt_hundred (by norm_num) (by norm_num)]
  norm_num

theorem make_sixty : Percentage.make 60 = .ok (3 / 5) := by
  rw [Percentage.make_of_lt_hundred (by norm_num) (by norm_num)]
  norm_num

theorem exampleChild_subtotalList (b : Bool) :
    CostTree.subtotalList [.group [.value 123, .value 456]] b none =
      .ok [123, 456] := by
  have hg : CostTree.subtotalList [.value 123, .value 456] b none =
      .ok [123, 456] := by
    have := subtotalList_values [123, 456] b none
    simpa using this
  rw [CostTree.subtotalList, CostTree.subtotalOne, hg, exc_bind_ok,
    subtotalList_nil, exc_bind_ok, exc_pure, List.append_nil]

theorem exampleChild_subtotal (b : Bool) :
    BCalc.subtotal exampleChild b = .ok 579 := by
  rw [exampleChild, BCalc.subtotal_ok (exampleChild_subtotalList b)]
  rw [List.map_cons, List.map_cons, List.map_nil,
    Currency.make_of_nonneg (by norm_num : (0:ℚ) ≤ 123),
    Currency.make_of_nonneg (by norm_num : (0:ℚ) ≤ 456),
    List.sum_cons, List.sum_cons, List.sum_nil]
  rw [show (123 : ℚ) + (456 + 0) = 579 by norm_num,
    Currency.make_of_nonneg (by norm_num)]

theorem exampleChild_ctx :
    BCalc.ctx exampleChild false = .ok ⟨579, 1 / 2, 1 / 10, 100⟩ := by
  have hm : percentSum exampleChild.margins = .ok (1 / 2) := by
    rw [exampleChild, BCalc.margins]
    exact percentSum_single make_fifty
  have hd : percentSum exampleChild.discounts = .ok (1 / 10) := by
    rw [exampleChild, BCalc.discounts]
    exact percentSum_single make_ten
  have hded : currencySum exampleChild.deductions = 100 := by
    rw [exampleChild, BCalc.deductions]
    exact currencySum_single (by norm_num)
  rw [BCalc.ctx_ok (exampleChild_subtotal false) hm hd, hded]

theorem exampleChild_total : BCalc.total exampleChild = .ok (4711 / 5) := by
  rw [BCalc.total_ok exampleChild_ctx]
  rw [calculate_ok (Percentage.make_of_lt_one (by norm_num) (by norm_num))
    (Percentage.make_of_lt_one (by norm_num) (by norm_num))]
  rw [Currency.make_of_nonneg (by norm_num : (0:ℚ) ≤ (579 : ℚ)),
    Currency.make_of_nonneg (by norm_num : (0:ℚ) ≤ (100 : ℚ))]
  rw [show ((579 : ℚ) / (1 - 1 / 2)) * (1 - 1 / 10) - 100 = 4711 / 5 by norm_num,
    Currency.make_of_nonneg (by norm_num)]

theorem subtotalList_mixed {vs1 vs2 : List ℚ} {child : BCalc} {ig : Bool}
    {s : Option Bool} {x : ℚ}
    (hx : CostTree.subtotalOne (.child child) ig s = .ok [x]) :
    CostTree.subtotalList
        (vs1.map .value ++ .child child :: vs2.map .value) ig s =
      .ok (vs1 ++ x :: vs2) := by
  have hmid : CostTree.subtotalList (.child child :: vs2.map .value) ig s =
      .ok (x :: vs2) := by
    rw [CostTree.subtotalList, hx, exc_bind_ok, subtotalList_values,
      exc_bind_ok, exc_pure, List.singleton_append]
  exact subtotalList_append (subtotalList_values vs1 ig s) hmid

theorem subtotal_mixed {vs1 vs2 : List ℚ} {child : BCalc}
    {m d dd : List NTree} {selfIg : Option Bool} {ig : Bool} {x : ℚ}
    (hx : CostTree.subtotalOne (.child child) ig selfIg = .ok [x]) :
    BCalc.subtotal
        (.mk (vs1.map .value ++ .child child :: vs2.map .value) m d dd selfIg)
        ig =
      .ok (Currency.make (((vs1 ++ vs2).map Currency.make).sum +
        Currency.make x)) := by
  rw [BCalc.subtotal_ok (subtotalList_mixed hx)]
  congr 1
  simp only [List.map_append, List.sum_append, List.map_cons, List.sum_cons]
  ring_nf

/-! ## Claim theorems -/

/-- C1: for all inputs convertible to the respective value types (the
margin and multiplier normalizing to `m2` and `mu2`), `calculate`
returns the `Currency` — hence sign-clamped, never negative — value of
`((subtotal / (1 - margin)) * (1 - multiplier)) - deduction`; with all
arguments left at their defaults it returns `0`;
`calculate('1234','50','10','300')` is a `Currency` whose formatted
string is exactly `'$1,921.20'`, and `calculate('1234','.5','.1','300')`
yields the identical result. -/
theorem claim_C1 :
    (∀ s m mu d m2 mu2 : ℚ, Percentage.make m = .ok m2 →
      Percentage.make mu = .ok mu2 →
      calculate s m mu d =
        .ok (Currency.make ((Currency.make s / (1 - m2)) * (1 - mu2) -
          Currency.make d)) ∧
      ∀ r, calculate s m mu d = .ok r → 0 ≤ r)
    ∧ calculate = .ok 0
    ∧ (∃ r : ℚ, calculate 1234 50 10 300 = .ok r ∧
        formatCurrency r = "$1,921.20".data ∧
        calculate 1234 (1/2) (1/10) 300 = .ok r) := by
  refine ⟨?_, ?_, ?_⟩
  · intro s m mu d m2 mu2 hm hmu
    refine ⟨calculate_ok hm hmu, ?_⟩
    intro r hr
    rw [calculate_ok hm hmu] at hr
    cases hr
    exact Currency.make_nonneg _
  · rw [calculate_ok (Percentage.make_of_lt_one le_rfl one_pos)
      (Percentage.make_of_lt_one le_rfl one_pos)]
    norm_num [Currency.make]
  · refine ⟨9606 / 5, ?_, ?_, ?_⟩
    · rw [calculate_ok
        (show Percentage.make 50 = .ok (1/2) by
          rw [Percentage.make_of_lt_hundred (by norm_num) (by norm_num)]
          norm_num)
        (show Percentage.make 10 = .ok (1/10) by
          rw [Percentage.make_of_lt_hundred (by norm_num) (by norm_num)]
          norm_num)]
      congr 1
      rw [Currency.make_of_nonneg (by norm_num : (0:ℚ) ≤ 1234),
        Currency.make_of_nonneg (by norm_num : (0:ℚ) ≤ 300)]
      rw [Currency.make_of_nonneg (by norm_num)]
      norm_num
    · have hcents : centsOf (9606 / 5) = 192120 := by
        norm_num [centsOf, ratFloor_eq]
      rw [formatCurrency, hcents]
      decide
    · rw [calculate_ok (Percentage.make_of_lt_one (by norm_num) (by norm_num))
        (Percentage.make_of_lt_one (by norm_num) (by norm_num))]
      congr 1
      rw [Currency.make_of_nonneg (by norm_num : (0:ℚ) ≤ 1234),
        Currency.make_of_nonneg (by norm_num : (0:ℚ) ≤ 300)]
      rw [Currency.make_of_nonneg (by norm_num)]
      norm_num

/-- Witness for C1: the universally quantified part applied at the
concrete documented inputs `('1234', '50', '10', '300')`. -/
theorem claim_C1_witness :
    Percentage.make 50 = .ok (1 / 2) ∧
    calculate 1234 50 10 300 =
      .ok (Currency.make ((Currency.make 1234 / (1 - 1 / 2)) * (1 - 1 / 10) -
        Currency.make 300)) := by
  have h50 : Percentage.make 50 = .ok (1 / 2) := by
    rw [Percentage.make_of_lt_hundred (by norm_num) (by norm_num)]
    norm_num
  have h10 : Percentage.make 10 = .ok (1 / 10) := by
    rw [Percentage.make_of_lt_hundred (by norm_num) (by norm_num)]
    norm_num
  exact ⟨h50, (claim_C1.1 1234 50 10 300 (1 / 2) (1 / 10) h50 h10).1⟩

/-- C4: on a decimal-parsed value `v`, the `Percentage` constructor
keeps `v` when it lies in `[0, 1)`, divides it by `100` when it lies in
`[1, 100)`, and fails with `PercentageOutOfRange` when `v < 0` or
`v ≥ 100`; every successfully constructed `Percentage` lies in
`[0, 1)`. -/
theorem claim_C4 : ∀ v : ℚ,
    (0 ≤ v → v < 1 → Percentage.make v = .ok v)
    ∧ (1 ≤ v → v < 100 → Percentage.make v = .ok (v / 100))
    ∧ (v < 0 ∨ 100 ≤ v → Percentage.make v = .error .percentageOutOfRange)
    ∧ (∀ p, Percentage.make v = .ok p → 0 ≤ p ∧ p < 1) := by
  intro v
  exact ⟨Percentage.make_of_lt_one, Percentage.make_of_lt_hundred,
    Percentage.make_of_out_of_range, fun p h => Percentage.make_ok_mem h⟩

/-- Witness for C4: the three regimes at `v = 0.5`, `v = 50` and
`v = 110`. -/
theorem claim_C4_witness :
    Percentage.make (1 / 2) = .ok (1 / 2) ∧
    Percentage.make 50 = .ok (50 / 100) ∧
    Percentage.make 110 = .error .percentageOutOfRange := by
  refine ⟨(claim_C4 (1 / 2)).1 (by norm_num) (by norm_num),
    (claim_C4 50).2.1 (by norm_num) (by norm_num),
    (claim_C4 110).2.2.1 (Or.inr (by norm_num))⟩

/-- Counterexample for C5: at `p = 1/200 = 0.005` — which satisfies
`0 ≤ p < 1` — `Percentage(p*100)` is `Percentage(0.5) = 0.5` while
`Percentage(p) = 0.005`: the two differ, because a product `p*100`
that still lies in `[0, 1)` is used as-is instead of being divided by
`100`. -/
theorem claim_C5_counterexample :
    (0 ≤ (1 / 200 : ℚ) ∧ (1 / 200 : ℚ) < 1) ∧
    Percentage.make ((1 / 200 : ℚ) * 100) = .ok (1 / 2) ∧
    Percentage.make (1 / 200 : ℚ) = .ok (1 / 200) ∧
    Percentage.make ((1 / 200 : ℚ) * 100) ≠ Percentage.make (1 / 200) := by
  have h1 : Percentage.make ((1 / 200 : ℚ) * 100) = .ok (1 / 2) := by
    rw [show ((1 / 200 : ℚ) * 100) = 1 / 2 by norm_num]
    exact Percentage.make_of_lt_one (by norm_num) (by norm_num)
  have h2 : Percentage.make (1 / 200 : ℚ) = .ok (1 / 200) :=
    Percentage.make_of_lt_one (by norm_num) (by norm_num)
  refine ⟨⟨by norm_num, by norm_num⟩, h1, h2, ?_⟩
  rw [h1, h2]
  simp only [ne_eq, Except.ok.injEq]
  norm_num

/-- C5 as amended: percent-form and fraction-form inputs agree exactly
for `p = 0` and for `1/100 ≤ p < 1` (so that `p*100` lands in
`[1, 100)` and is divided back by `100`); for `0 < p < 1/100` the two
normalizations differ, as the counterexample shows. -/
theorem claim_C5 : ∀ p : ℚ, p = 0 ∨ (1 / 100 ≤ p ∧ p < 1) →
    Percentage.make (p * 100) = Percentage.make p := by
  rintro p (rfl | ⟨h1, h2⟩)
  · rw [zero_mul]
  · rw [Percentage.make_of_lt_one (by linarith) h2,
      Percentage.make_of_lt_hundred (by linarith) (by linarith)]
    congr 1
    field_simp

/-- Witness for C5: the documented example `Percentage(50) ==
Percentage(0.5)` is the amended claim at `p = 1/2`. -/
theorem claim_C5_witness :
    Percentage.make ((1 / 2 : ℚ) * 100) = Percentage.make (1 / 2 : ℚ) :=
  claim_C5 (1 / 2) (Or.inr ⟨by norm_num, by norm_num⟩)

/-- C8: the `rate` setter keeps the previous rate unchanged on a `None`
assignment, on a value `decimal.Decimal` cannot convert, and on any
negative value; it stores any non-negative convertible value.  The
setter is embedded as a total function: it never raises. -/
theorem claim_C8 : ∀ current : ℚ,
    Calculator.setRate current .none = current
    ∧ Calculator.setRate current .invalid = current
    ∧ (∀ q : ℚ, q < 0 → Calculator.setRate current (.num q) = current)
    ∧ (∀ q : ℚ, 0 ≤ q → Calculator.setRate current (.num q) = q) := by
  intro current
  refine ⟨rfl, rfl, ?_, ?_⟩
  · intro q hq
    rw [Calculator.setRate, if_neg (not_le.2 hq)]
  · intro q hq
    rw [Calculator.setRate, if_pos hq]

/-- Witness for C8: the test-suite scenario — a rate of `20` survives
the assignments of `None` and `'-1'`, and accepts `30`. -/
theorem claim_C8_witness :
    Calculator.setRate 20 .none = 20
    ∧ Calculator.setRate 20 (.num (-1)) = 20
    ∧ Calculator.setRate 20 (.num 30) = 30 :=
  ⟨(claim_C8 20).1, (claim_C8 20).2.2.1 (-1) (by norm_num),
    (claim_C8 20).2.2.2 30 (by norm_num)⟩

/-- Counterexample for C6: the Currency value `1234.5` formats as
`'$1,234.50'`; feeding that string back into the `Currency` constructor
fails with `decimal.InvalidOperation` — after the symbol is stripped the
remainder `'1,234.50'` still contains the thousands separator, which
`decimal.Decimal` rejects — contradicting "Currency construction accepts
any previously-formatted currency string without error". -/
theorem claim_C6_counterexample :
    Currency.make (2469 / 2 : ℚ) = (2469 / 2 : ℚ) ∧
    formatCurrency (Currency.make (2469 / 2 : ℚ)) = "$1,234.50".data ∧
    Currency.fromChars ("$1,234.50".data) = .error .invalidOperation := by
  have hmk : Currency.make (2469 / 2 : ℚ) = (2469 / 2 : ℚ) :=
    Currency.make_of_nonneg (by norm_num)
  refine ⟨hmk, ?_, by decide⟩
  have hcents : centsOf (2469 / 2 : ℚ) = 123450 := by
    norm_num [centsOf, ratFloor_eq]
  rw [hmk, formatCurrency, hcents]
  decide

/-- C6 as amended: for every constructed Currency value whose rounded
amount stays below 1000 currency units — so its formatted string has no
thousands separator — reparsing the formatted display string succeeds
and yields the value rounded to two decimal places; a value of 1000
units or more formats with a `,`, which the reparse rejects, as the
counterexample shows. -/
theorem claim_C6 : ∀ v : ℚ, centsOf (Currency.make v) < 100000 →
    Currency.fromChars (formatCurrency (Currency.make v)) =
      .ok ((centsOf (Currency.make v) : ℚ) / 100) := by
  intro v hv
  exact fromChars_formatCurrency (Currency.make_nonneg v) hv

/-- Witness for C6: the value `$123.45` round-trips through its
formatted string. -/
theorem claim_C6_witness :
    centsOf (Currency.make (2469 / 20 : ℚ)) < 100000 ∧
    Currency.fromChars (formatCurrency (Currency.make (2469 / 20 : ℚ))) =
      .ok ((centsOf (Currency.make (2469 / 20 : ℚ)) : ℚ) / 100) := by
  have h : centsOf (Currency.make (2469 / 20 : ℚ)) < 100000 := by
    rw [Currency.make_of_nonneg (by norm_num)]
    norm_num [centsOf, ratFloor_eq]
  exact ⟨h, claim_C6 (2469 / 20) h⟩

/-- Counterexample for C7: on the input `'a; ;b'` the claim predicts
that the whitespace-only middle token is dropped after trimming,
yielding `('a', 'b')`; instead `parse_input_string` filters on the raw
tokens before trimming, so the middle token survives as the empty
string and the result is `('a', '', 'b')`. -/
theorem claim_C7_counterexample :
    parse_input_string "a; ;b".data ';' id = ["a".data, [], "b".data] ∧
    ([] : List Char) ∈ parse_input_string "a; ;b".data ';' id ∧
    parse_input_string "a; ;b".data ';' id ≠ ["a".data, "b".data] := by
  refine ⟨by decide, by decide, by decide⟩

/-- C7 as amended: `parse_input_string` splits the stripped input on
the separator, drops every token that is empty before trimming (a
whitespace-only token is kept and becomes the empty string), trims each
kept token, applies the converter to it, and always returns a sequence
— of length one when the (stripped, non-empty) input holds no
separator. -/
theorem claim_C7 : ∀ (α : Type) (string : List Char) (sep : Char)
    (conv : List Char → α),
    (∀ x ∈ parse_input_string string sep conv,
      ∃ raw, raw ∈ splitOnChar sep (trimChars string) ∧ raw ≠ [] ∧
        x = conv (trimChars raw))
    ∧ ((parse_input_string string sep conv).length =
        ((splitOnChar sep (trimChars string)).filter
          (fun s => decide (s ≠ []))).length)
    ∧ (trimChars string = string → string ≠ [] →
        splitOnChar sep string = [string] →
        parse_input_string string sep conv = [conv string]) := by
  intro α string sep conv
  refine ⟨?_, ?_, ?_⟩
  · intro x hx
    rw [parse_input_string] at hx
    obtain ⟨raw, hraw, rfl⟩ := List.mem_map.1 hx
    obtain ⟨hmem, hne⟩ := List.mem_filter.1 hraw
    exact ⟨raw, hmem, by simpa using hne, rfl⟩
  · rw [parse_input_string, List.length_map]
  · intro htrim hne hsplit
    rw [parse_input_string, htrim, hsplit]
    rw [List.filter_cons_of_pos (by simpa using hne), List.filter_nil,
      List.map_cons, List.map_nil, htrim]

/-- Witness for C7: the documented example `'123; 456'` with the
default separator, and the single-token case `'123'`. -/
theorem claim_C7_witness :
    (∃ raw, raw ∈ splitOnChar ';' (trimChars "123; 456".data) ∧ raw ≠ [] ∧
      "123".data = id (trimChars raw))
    ∧ parse_input_string "123".data ';' id = ["123".data] := by
  refine ⟨(claim_C7 (List Char) "123; 456".data ';' id).1 "123".data
    (by decide), ?_⟩
  exact (claim_C7 (List Char) "123".data ';' id).2.2 (by decide)
    (by decide) (by decide)

/-- C9: `flatten` produces the scalars of an arbitrarily nested
sequence in left-to-right depth-first order — the output never contains
a list, flattening a concatenation concatenates the flattenings, and a
text value is yielded atomically, never iterated character by
character; in particular the documented example
`['1','2',[3,['4'],['5 is alive',6],7],[8,'9.0']]` flattens to exactly
`['1','2',3,'4','5 is alive',6,7,8,'9.0']`. -/
theorem claim_C9 :
    flattenList [.str "1".data, .str "2".data,
      .list [.num 3, .list [.str "4".data],
        .list [.str "5 is alive".data, .num 6], .num 7],
      .list [.num 8, .str "9.0".data]] =
      [.str "1".data, .str "2".data, .num 3, .str "4".data,
       .str "5 is alive".data, .num 6, .num 7, .num 8, .str "9.0".data]
    ∧ (∀ xs : List PyVal, ∀ v ∈ flattenList xs, v.isList = false)
    ∧ (∀ xs ys : List PyVal,
        flattenList (xs ++ ys) = flattenList xs ++ flattenList ys)
    ∧ (∀ s : List Char, flattenList [.str s] = [.str s]) := by
  refine ⟨?_, ?_, ?_, ?_⟩
  · simp [flattenList]
  · intro xs
    induction xs using flattenList.induct with
    | case1 =>
      intro v hv
      rw [flattenList] at hv
      cases hv
    | case2 s rest ih =>
      intro v hv
      rw [flattenList] at hv
      rcases List.mem_cons.1 hv with rfl | hv
      · rfl
      · exact ih v hv
    | case3 ys rest ih1 ih2 =>
      intro v hv
      rw [flattenList] at hv
      rcases List.mem_append.1 hv with hv | hv
      · exact ih1 v hv
      · exact ih2 v hv
    | case4 q rest ih =>
      intro v hv
      rw [flattenList] at hv
      rcases List.mem_cons.1 hv with rfl | hv
      · rfl
      · exact ih v hv
  · intro xs ys
    induction xs using flattenList.induct with
    | case1 => rw [List.nil_append, flattenList, List.nil_append]
    | case2 s rest ih =>
      rw [List.cons_append, flattenList, flattenList, ih, List.cons_append]
    | case3 zs rest ih1 ih2 =>
      rw [List.cons_append, flattenList, flattenList, ih2, List.append_assoc]
    | case4 q rest ih =>
      rw [List.cons_append, flattenList, flattenList, ih, List.cons_append]
  · intro s
    rw [flattenList, flattenList]

/-- Witness for C9: the hypothesis-bearing conjuncts applied at the
documented example — the scalar `3` drawn from the flattening is not a
list, and two halves of the example concatenate. -/
theorem claim_C9_witness :
    PyVal.isList (.num 3) = false ∧
    flattenList ([.str "1".data] ++ [.list [.num 8, .str "9.0".data]]) =
      flattenList [.str "1".data] ++ flattenList [.list [.num 8, .str "9.0".data]] := by
  refine ⟨?_, claim_C9.2.2.1 [.str "1".data] [.list [.num 8, .str "9.0".data]]⟩
  exact claim_C9.2.1 [.num 3] (.num 3) (by simp [flattenList])

/-- C10: a constructor argument of `BaseCalculator`/`Calculator` is
stored — as a single appended element of the corresponding collection —
only when it is truthy; the falsy arguments `0`, `''` and `[]` leave
the collection empty, and a calculator with no stored costs has
subtotal `Currency` `0` rather than failing or recording a zero
entry. -/
theorem claim_C10 :
    (∀ c m d dd : PyVal, isTruthy c = false →
      (BaseCalculator.init c m d dd).costs = [])
    ∧ (∀ c m d dd : PyVal, isTruthy c = true →
      (BaseCalculator.init c m d dd).costs = [c])
    ∧ (isTruthy (.num 0) = false ∧ isTruthy (.str []) = false ∧
        isTruthy (.list []) = false)
    ∧ (∀ h : PyVal, isTruthy h = false → Calculator.initHours h ['0'] = [])
    ∧ (∀ f : PyVal, isTruthy f = false → Calculator.initFormatters f = [])
    ∧ (∀ (m d dd : List NTree) (ig : Option Bool) (b : Bool),
        BCalc.subtotal (.mk [] m d dd ig) b = .ok 0) := by
  refine ⟨?_, ?_, ⟨by decide, by decide, rfl⟩, ?_, ?_, ?_⟩
  · intro c m d dd hc
    rw [BaseCalculator.init]
    rw [storeArg, hc]
    rfl
  · intro c m d dd hc
    rw [BaseCalculator.init]
    rw [storeArg, hc]
    rfl
  · intro h hh
    rw [Calculator.initHours, storeArg, hh]
    rfl
  · intro f hf
    rw [Calculator.initFormatters, storeArg, hf]
    rfl
  · intro m d dd ig b
    exact subtotal_nil m d dd ig b

/-- Witness for C10: `BaseCalculator(costs=0)` and
`BaseCalculator(costs='')` store nothing and have subtotal `0`. -/
theorem claim_C10_witness :
    (BaseCalculator.init (.num 0) (.num 0) (.num 0) (.num 0)).costs = []
    ∧ (BaseCalculator.init (.str []) (.num 0) (.num 0) (.num 0)).costs = []
    ∧ BCalc.subtotal (.mk [] [] [] [] none) false = .ok 0 :=
  ⟨claim_C10.1 (.num 0) (.num 0) (.num 0) (.num 0) (by decide),
    claim_C10.1 (.str []) (.num 0) (.num 0) (.num 0) (by decide),
    claim_C10.2.2.2.2.2 [] [] [] none false⟩

/-- C2: a parent whose costs hold scalar values `vs1`, a child
calculator and scalar values `vs2` has `subtotal()` equal to the
`Currency` sum of the flattened non-calculator costs plus the child's
`total()` (the child's own margins folded in); and with
`ignore_margins=True` — passed as the parameter, or set as the parent's
instance flag — the same sum but with the child's
`subtotal(ignore_margins=True)` instead. -/
theorem claim_C2 : ∀ (vs1 vs2 : List ℚ) (child : BCalc) (m d dd : List NTree),
    (∀ t, BCalc.total child = .ok t →
      BCalc.subtotal
        (.mk (vs1.map .value ++ .child child :: vs2.map .value) m d dd none)
        false =
        .ok (Currency.make (((vs1 ++ vs2).map Currency.make).sum +
          Currency.make t)))
    ∧ (∀ st, BCalc.subtotal child true = .ok st →
      BCalc.subtotal
        (.mk (vs1.map .value ++ .child child :: vs2.map .value) m d dd none)
        true =
        .ok (Currency.make (((vs1 ++ vs2).map Currency.make).sum +
          Currency.make st)))
    ∧ (∀ st, BCalc.subtotal child true = .ok st →
      BCalc.subtotal
        (.mk (vs1.map .value ++ .child child :: vs2.map .value) m d dd
          (some true))
        false =
        .ok (Currency.make (((vs1 ++ vs2).map Currency.make).sum +
          Currency.make st))) := by
  intro vs1 vs2 child m d dd
  refine ⟨?_, ?_, ?_⟩
  · intro t ht
    exact subtotal_mixed (subtotalOne_child_total (by simp) ht)
  · intro st hst
    exact subtotal_mixed (subtotalOne_child_subtotal (Or.inl rfl) hst)
  · intro st hst
    exact subtotal_mixed (subtotalOne_child_subtotal (Or.inr rfl) hst)

/-- Witness for C2: the test-suite scenario
`BaseCalculator(['123', child], '50', '10', '100')` — the parent's
subtotal is `123 + 942.2 = 1065.2` with the child's margins applied and
`123 + 579 = 702` with them bypassed (both via the parameter and via
the instance flag). -/
theorem claim_C2_witness :
    BCalc.total exampleChild = .ok (4711 / 5)
    ∧ BCalc.subtotal exampleChild true = .ok 579
    ∧ BCalc.subtotal
        (.mk ([123].map .value ++ .child exampleChild :: [].map .value)
          [.leaf 50] [.leaf 10] [.leaf 100] none) false = .ok (5326 / 5)
    ∧ BCalc.subtotal
        (.mk ([123].map .value ++ .child exampleChild :: [].map .value)
          [.leaf 50] [.leaf 10] [.leaf 100] none) true = .ok 702
    ∧ BCalc.subtotal
        (.mk ([123].map .value ++ .child exampleChild :: [].map .value)
          [.leaf 50] [.leaf 10] [.leaf 100] (some true)) false = .ok 702 := by
  have h1 := (claim_C2 [123] [] exampleChild [.leaf 50] [.leaf 10]
    [.leaf 100]).1 (4711 / 5) exampleChild_total
  have h2 := (claim_C2 [123] [] exampleChild [.leaf 50] [.leaf 10]
    [.leaf 100]).2.1 579 (exampleChild_subtotal true)
  have h3 := (claim_C2 [123] [] exampleChild [.leaf 50] [.leaf 10]
    [.leaf 100]).2.2 579 (exampleChild_subtotal true)
  refine ⟨exampleChild_total, exampleChild_subtotal true, ?_, ?_, ?_⟩
  · rw [h1]
    congr 1
    rw [List.append_nil, List.map_cons, List.map_nil, List.sum_cons,
      List.sum_nil, Currency.make_of_nonneg (by norm_num : (0:ℚ) ≤ 123),
      Currency.make_of_nonneg (by norm_num : (0:ℚ) ≤ 4711 / 5)]
    rw [show (123 : ℚ) + 0 + 4711 / 5 = 5326 / 5 by norm_num,
      Currency.make_of_nonneg (by norm_num)]
  · rw [h2]
    congr 1
    rw [List.append_nil, List.map_cons, List.map_nil, List.sum_cons,
      List.sum_nil, Currency.make_of_nonneg (by norm_num : (0:ℚ) ≤ 123),
      Currency.make_of_nonneg (by norm_num : (0:ℚ) ≤ 579)]
    rw [show (123 : ℚ) + 0 + 579 = 702 by norm_num,
      Currency.make_of_nonneg (by norm_num)]
  · rw [h3]
    congr 1
    rw [List.append_nil, List.map_cons, List.map_nil, List.sum_cons,
      List.sum_nil, Currency.make_of_nonneg (by norm_num : (0:ℚ) ≤ 123),
      Currency.make_of_nonneg (by norm_num : (0:ℚ) ≤ 579)]
    rw [show (123 : ℚ) + 0 + 579 = 702 by norm_num,
      Currency.make_of_nonneg (by norm_num)]

/-- Counterexample for C3: with margins `['50', '60']` the individually
wrapped entries are `0.5` and `0.6`, whose sum `1.1` is `≥ 1`; yet
`ctx()` does not fail with `PercentageOutOfRange` — re-wrapping `1.1`
lands in the `[1, 100)` branch of the `Percentage` constructor, which
silently divides by `100`, so the context carries margin `0.011`. -/
theorem claim_C3_counterexample :
    percentVals (NTree.flattenList [.leaf 50, .leaf 60]) = .ok [1 / 2, 3 / 5]
    ∧ (1 : ℚ) ≤ ([(1 : ℚ) / 2, 3 / 5].sum)
    ∧ BCalc.ctx (.mk [] [.leaf 50, .leaf 60] [] [] none) false =
        .ok ⟨0, 11 / 1000, 0, 0⟩ := by
  have hvals : percentVals (NTree.flattenList [.leaf 50, .leaf 60]) =
      .ok [1 / 2, 3 / 5] := by
    rw [flattenN_pair]
    exact percentVals_cons_ok make_fifty
      (percentVals_cons_ok make_sixty percentVals_nil)
  refine ⟨hvals, by norm_num, ?_⟩
  have hm : percentSum (BCalc.margins (.mk [] [.leaf 50, .leaf 60] [] [] none)) =
      .ok (11 / 1000) := by
    rw [BCalc.margins, percentSum_ok hvals]
    rw [show ([(1 : ℚ) / 2, 3 / 5].sum) = 11 / 10 by norm_num]
    rw [Percentage.make_of_lt_hundred (by norm_num) (by norm_num)]
    norm_num
  have hd : percentSum (BCalc.discounts (.mk [] [.leaf 50, .leaf 60] [] [] none)) =
      .ok 0 := by
    rw [BCalc.discounts]
    exact percentSum_nil
  have hded : currencySum (BCalc.deductions (.mk [] [.leaf 50, .leaf 60] [] [] none)) = 0 := by
    rw [BCalc.deductions]
    exact currencySum_nil
  rw [BCalc.ctx_ok (subtotal_nil _ _ _ _ _) hm hd, hded]

/-- C3 as amended: `ctx()` computes the margin (and likewise the
discount) by wrapping each flattened entry as a `Percentage`, summing
the plain decimals and re-wrapping the sum; but a sum of valid
fractions that lands in `[1, 100)` is silently divided by `100` at the
re-wrapping step, and only a sum `≥ 100` makes `ctx()` (and hence
`total()`) fail with `PercentageOutOfRange`. -/
theorem claim_C3 : ∀ (c : BCalc) (st : ℚ) (vals : List ℚ),
    BCalc.subtotal c false = .ok st →
    percentVals (NTree.flattenList c.margins) = .ok vals →
    (percentSum c.margins = Percentage.make vals.sum)
    ∧ (100 ≤ vals.sum →
        BCalc.ctx c false = .error .percentageOutOfRange)
    ∧ (∀ dv, percentSum c.discounts = .ok dv →
        (vals.sum < 1 →
          BCalc.ctx c false =
            .ok ⟨st, vals.sum, dv, currencySum c.deductions⟩)
        ∧ (1 ≤ vals.sum → vals.sum < 100 →
          BCalc.ctx c false =
            .ok ⟨st, vals.sum / 100, dv, currencySum c.deductions⟩)) := by
  intro c st vals hst hvals
  have hps : percentSum c.margins = Percentage.make vals.sum :=
    percentSum_ok hvals
  have hnn : 0 ≤ vals.sum := percentVals_sum_nonneg hvals
  refine ⟨hps, ?_, ?_⟩
  · intro hge
    have herr : percentSum c.margins = .error .percentageOutOfRange := by
      rw [hps]
      exact Percentage.make_of_out_of_range (Or.inr hge)
    exact BCalc.ctx_err_margin hst herr
  · intro dv hdv
    constructor
    · intro hlt
      have hm : percentSum c.margins = .ok vals.sum := by
        rw [hps]
        exact Percentage.make_of_lt_one hnn hlt
      exact BCalc.ctx_ok hst hm hdv
    · intro hge hlt
      have hm : percentSum c.margins = .ok (vals.sum / 100) := by
        rw [hps]
        exact Percentage.make_of_lt_hundred hge hlt
      exact BCalc.ctx_ok hst hm hdv

/-- Witness for C3: the margins `['50', '60']` of the counterexample
calculator, driven through the amended claim — the sum `1.1` lies in
`[1, 100)`, so the context margin is `1.1 / 100 = 0.011`. -/
theorem claim_C3_witness :
    percentSum (BCalc.margins (.mk [] [.leaf 50, .leaf 60] [] [] none)) =
      Percentage.make ([(1 : ℚ) / 2, 3 / 5].sum)
    ∧ BCalc.ctx (.mk [] [.leaf 50, .leaf 60] [] [] none) false =
        .ok ⟨0, ([(1 : ℚ) / 2, 3 / 5].sum) / 100, 0,
          currencySum (BCalc.deductions (.mk [] [.leaf 50, .leaf 60] [] [] none))⟩ := by
  have hvals : percentVals (NTree.flattenList
      (BCalc.margins (.mk [] [.leaf 50, .leaf 60] [] [] none))) =
      .ok [1 / 2, 3 / 5] := by
    rw [BCalc.margins, flattenN_pair]
    exact percentVals_cons_ok make_fifty
      (percentVals_cons_ok make_sixty percentVals_nil)
  have h := claim_C3 (.mk [] [.leaf 50, .leaf 60] [] [] none) 0 [1 / 2, 3 / 5]
    (subtotal_nil _ _ _ _ _) hvals
  refine ⟨h.1, ?_⟩
  have hd : percentSum (BCalc.discounts (.mk [] [.leaf 50, .leaf 60] [] [] none)) =
      .ok 0 := by
    rw [BCalc.discounts]
    exact percentSum_nil
  exact (h.2.2 0 hd).2 (by norm_num) (by norm_num)

end JobCalc

